import Mathlib

/- A verification model of the sidecar metadata store of SuperHelperXPro
   (src/superhelperhxpro/main.py): per-directory hidden JSON side-files
   holding file tags and folder moods, with tagging, metadata search, tag
   search, catalog export and content deduplication built on top. -/

/-- The reserved sidecar file name, `METADATA_FILE` in the source
(`.superhxpro_metadata.json`). -/
def METADATA_FILE : String := ".superhxpro_metadata.json"

/-- The reserved directory-level key (`"__folder__"` in the source). -/
def FOLDER_KEY : String := "__folder__"

/-- `METADATA_FILE.strip('.')`, the name `export_map` skips when listing
subdirectories. -/
def METADATA_DIRNAME : String := "superhxpro_metadata.json"

/-- Microseconds per day: `timedelta(days=1)` at `datetime` precision. -/
def usPerDay : Int := 86400000000

/-- The characters Python `str.strip()` removes by default (ASCII range). -/
def pyStripChar (c : Char) : Bool :=
  c == ' ' || c == '\t' || c == '\n' || c == '\r' || c == '\x0b' || c == '\x0c'

/-- Python `s.strip()`: drop leading and trailing whitespace. -/
def pyStrip (s : String) : String :=
  ⟨((s.data.dropWhile pyStripChar).reverse.dropWhile pyStripChar).reverse⟩

/-- Helper for `pySplitCommas`. -/
def splitCommasAux : List Char → List Char → List String
  | [], acc => [⟨acc.reverse⟩]
  | c :: rest, acc =>
      if c = ',' then (⟨acc.reverse⟩ : String) :: splitCommasAux rest []
      else splitCommasAux rest (c :: acc)

/-- Python `s.split(',')` (note `''.split(',') == ['']`). -/
def pySplitCommas (s : String) : List String :=
  splitCommasAux s.data []

/-- A stored mood record `{"value": ..., "name": ...}`; the source reads both
keys with `.get`, hence both optional. -/
structure Mood where
  value : Option String
  name : Option String
deriving DecidableEq

/-- One value of a metadata document: the keys the program reads, namely
`.get("tags", [])` and `.get("mood", {})`. -/
structure Entry where
  tags : List String
  mood : Option Mood
deriving DecidableEq

/-- A metadata document: a JSON object keyed by filename (plus the reserved
`__folder__` key), kept in insertion order like a Python `dict`. -/
abbrev Doc := List (String × Entry)

/-- Association-list lookup: Python `d[k]` / `d.get(k)` on a `dict`. -/
def alGet {β : Type} : List (String × β) → String → Option β
  | [], _ => none
  | (k, v) :: rest, key => if k = key then some v else alGet rest key

/-- Association-list update: Python `d[k] = v` — replace the key in place, or
append a new key at the end (dict insertion order). -/
def alSet {β : Type} : List (String × β) → String → β → List (String × β)
  | [], key, v => [(key, v)]
  | (k, w) :: rest, key, v =>
      if k = key then (key, v) :: rest else (k, w) :: alSet rest key v

/-- Python exception classes that the program raises or handles. -/
inductive PyErr where
  | osError
  | ioError
  | valueError
  | typeError
  | attributeError
  | keyError
  | jsonDecodeError
  | other
deriving DecidableEq

/-- The on-disk state a `_load_metadata` call can encounter: no sidecar file,
a sidecar file with some text content, or a read that raises (`IOError`, or
any other exception caught by the last handler). -/
inductive SidecarFile where
  | missing
  | content (s : String)
  | ioError
  | otherError

/-- The `try`-block of `_load_metadata` (main.py lines 22-45): read, strip,
return `{}` on empty text, otherwise `json.loads` (a library call, modelled
by the ambient `parse` function; `none` means `json.JSONDecodeError`). -/
def loadBody (parse : String → Option Doc) : SidecarFile → Except PyErr Doc
  | .missing => .ok []
  | .content s =>
      let c := pyStrip s
      if c = "" then .ok []
      else
        match parse c with
        | some d => .ok d
        | none => .error .jsonDecodeError
  | .ioError => .error .ioError
  | .otherError => .error .other

/-- `_load_metadata` (main.py lines 15-48): the `try`-block wrapped in the
`except json.JSONDecodeError` / `except IOError` / `except Exception`
handlers, every one of which logs and returns the empty document. -/
def loadMetadata (parse : String → Option Doc) (f : SidecarFile) :
    Except PyErr Doc :=
  match loadBody parse f with
  | .ok d => .ok d
  | .error .jsonDecodeError => .ok []
  | .error .ioError => .ok []
  | .error _ => .ok []

/-- Stand-in for the text `json.dump(metadata, f, indent=4)` produces; the
claims about `_save_metadata` depend only on the write mechanics (the whole
string, or a prefix of it, reaches the disk), not on the exact bytes. -/
def serializeMood : Option Mood → String
  | none => ""
  | some m => "mood:" ++ m.value.getD ("") ++ ":" ++ m.name.getD ("")

/-- Serialization of one document entry (see `serializeMood`). -/
def serializeEntry (k : String) (e : Entry) : String :=
  k ++ "=" ++ String.intercalate (",") e.tags ++ ";" ++ serializeMood e.mood

/-- Serialization of a whole document (see `serializeMood`). -/
def serialize (d : Doc) : String :=
  String.intercalate ("|") (d.map (fun p => serializeEntry p.1 p.2))

/-- One directory's durable state around a `_save_metadata` call: whether the
directory exists and the sidecar file's content (`none` = no file). -/
structure SidecarDisk where
  dirExists : Bool
  disk : Option String
deriving DecidableEq

/-- Where a `_save_metadata` call can fail: `makedirsFail` — the
`os.makedirs` call raises; `openFail` — `open(metadata_path, 'w')` raises
(e.g. `PermissionError`), so the file is not touched; `writeFail k` — the
open succeeds (CPython truncates the file at that moment) and `json.dump`
raises after `k` characters of the serialization have been written;
`ok` — no failure. -/
inductive SaveFault where
  | ok
  | makedirsFail
  | openFail
  | writeFail (k : Nat)

/-- `_save_metadata` (main.py lines 50-68) under a given fault:
`os.makedirs(folder_path, exist_ok=True)`, then `open(metadata_path, 'w')`
(truncating on success), then `json.dump` writing the serialization
incrementally; every handler only logs, so the state reached at the failure
point is what remains on disk. -/
def saveMetadataRun (st : SidecarDisk) (d : Doc) : SaveFault → SidecarDisk
  | .makedirsFail => st
  | .openFail => ⟨true, st.disk⟩
  | .writeFail k => ⟨true, some ((serialize d).take k)⟩
  | .ok => ⟨true, some (serialize d)⟩

/-- Lexicographic comparison of character lists by code point — the order
Python uses on `str`. (Defined structurally so that it evaluates.) -/
def listCharLt : List Char → List Char → Bool
  | [], [] => false
  | [], _ :: _ => true
  | _ :: _, [] => false
  | a :: as, b :: bs =>
      if a.toNat < b.toNat then true
      else if b.toNat < a.toNat then false
      else listCharLt as bs

/-- Python `x < y` on strings: lexicographic by code point. -/
def strLt (x y : String) : Bool :=
  listCharLt x.data y.data

/-- Insert a string into a sorted, duplicate-free list, keeping it sorted and
duplicate-free. -/
def insertS (x : String) : List String → List String
  | [] => [x]
  | y :: ys =>
      if x = y then y :: ys
      else if strLt x y then x :: y :: ys
      else y :: insertS x ys

/-- Canonical form of a Python `set` of strings: its members sorted and
deduplicated (also the value of Python `sorted(list(theSet))`). -/
def sortDedup : List String → List String
  | [] => []
  | x :: xs => insertS x (sortDedup xs)

/-- Python set union (result in canonical sorted-deduplicated form). -/
def pyUnion (xs ys : List String) : List String :=
  sortDedup (xs ++ ys)

/-- Python set difference (result in canonical sorted-deduplicated form). -/
def pyDiff (xs ys : List String) : List String :=
  sortDedup (xs.filter (fun x => !(ys.contains x)))

/-- `{tag.strip() for tag in s.split(',') if tag.strip()}` in `tag_file`
(main.py lines 407-408): split on commas, trim surrounding whitespace,
discard empty strings, collect into a set. -/
def parseTags (s : String) : List String :=
  sortDedup (((pySplitCommas s).map pyStrip).filter (· ≠ ""))

/-- One path of `tag_file`'s `target_paths` list, with the facts the loop
guard consults: the owning directory, the basename, and whether
`os.path.isfile` holds. -/
structure Target where
  folder : String
  name : String
  isFile : Bool

/-- The observable state threaded through `tag_file`'s loop: the map from
directory to its on-disk sidecar document (absent key = no sidecar file),
plus counters of `_load_metadata` and `_save_metadata` calls. -/
structure TagState where
  fs : List (String × Doc)
  loads : Nat
  saves : Nat
deriving DecidableEq

/-- The loop-guard predicate of `tag_file` (main.py line 412): a target is
processed when it is a regular file and not the reserved sidecar file. -/
def processedTarget (t : Target) : Bool :=
  t.isFile && !(t.name == METADATA_FILE)

/-- One iteration of `tag_file`'s loop (main.py lines 411-432): skip
non-files and the reserved sidecar name; otherwise load the owning
directory's document, default the entry to `{"tags": []}`, compute
`(current ∪ add) \ remove`, and save the document (with the updated tag set
stored as `sorted(list(...))`, i.e. in canonical form) only when the set
changed. -/
def tagStep (addT remT : List String) (st : TagState) (t : Target) :
    TagState :=
  if processedTarget t then
    let doc := (alGet st.fs t.folder).getD []
    let entry := (alGet doc t.name).getD ⟨[], none⟩
    let current := sortDedup entry.tags
    let updated := pyDiff (pyUnion current addT) remT
    if updated = current then ⟨st.fs, st.loads + 1, st.saves⟩
    else
      ⟨alSet st.fs t.folder (alSet doc t.name { entry with tags := updated }),
        st.loads + 1, st.saves + 1⟩
  else st

/-- `tag_file` (main.py lines 385-434) restricted to its metadata effects:
parse the add/remove tag strings once, then run the per-path loop over the
resolved target list. -/
def tagFile (targets : List Target) (addS remS : String)
    (fs : List (String × Doc)) : TagState :=
  targets.foldl (tagStep (parseTags addS) (parseTags remS)) ⟨fs, 0, 0⟩

/-- Helper for splitting a character list on a separator character. -/
def splitCharAux (sep : Char) : List Char → List Char → List String
  | [], acc => [⟨acc.reverse⟩]
  | c :: rest, acc =>
      if c = sep then (⟨acc.reverse⟩ : String) :: splitCharAux sep rest []
      else splitCharAux sep rest (c :: acc)

/-- Python `str.lower()` restricted to ASCII (all names the program lowers —
extensions, query values — are ASCII in the claims considered). -/
def pyLowerChar (c : Char) : Char :=
  if 65 ≤ c.toNat then
    if c.toNat ≤ 90 then Char.ofNat (c.toNat + 32) else c
  else c

/-- Python `s.lower()` (see `pyLowerChar`). -/
def pyLower (s : String) : String :=
  ⟨s.data.map pyLowerChar⟩

/-- An ASCII decimal digit. -/
def isDigitCh (c : Char) : Bool :=
  decide (48 ≤ c.toNat ∧ c.toNat ≤ 57)

/-- Helper for `pyInt?`: the value of a digit run in which a single
underscore may separate two digits (`int("1_0") == 10`, while a leading,
trailing, or doubled underscore raises `ValueError`). The caller has already
checked that the first character is a digit. -/
def digitsValAux : List Char → Nat → Option Nat
  | [], acc => some acc
  | [c], acc =>
      if isDigitCh c then some (acc * 10 + (c.toNat - 48)) else none
  | c :: d :: rest, acc =>
      if isDigitCh c then digitsValAux (d :: rest) (acc * 10 + (c.toNat - 48))
      else if c = '_' then
        if isDigitCh d then digitsValAux rest (acc * 10 + (d.toNat - 48))
        else none
      else none

/-- Python `int(s)` on a string: strip whitespace, optional sign, then a
digit run with optional single underscores between digits; `none` models the
`ValueError` raised on anything else. -/
def pyInt? (s : String) : Option Int :=
  match (pyStrip s).data with
  | [] => none
  | '-' :: rest =>
      match rest with
      | [] => none
      | d :: _ =>
          if isDigitCh d then (digitsValAux rest 0).map (fun n => -(n : Int))
          else none
  | '+' :: rest =>
      match rest with
      | [] => none
      | d :: _ =>
          if isDigitCh d then (digitsValAux rest 0).map (fun n => (n : Int))
          else none
  | c :: rest =>
      if isDigitCh c then (digitsValAux (c :: rest) 0).map (fun n => (n : Int))
      else none

/-- `os.path.splitext(name)[1].lstrip('.').lower()`: the extension after the
last dot (leading dots of the basename do not count), lowercased. -/
def extOf (name : String) : String :=
  let stem := name.data.dropWhile (fun c => c == '.')
  let parts := splitCharAux '.' stem []
  if parts.length ≤ 1 then "" else pyLower ((parts.getLast?).getD (""))

/-- A JSON value, the shape of `json.loads` output for the search query. -/
inductive JVal where
  | null
  | bool (b : Bool)
  | int (n : Int)
  | str (s : String)
  | list (xs : List JVal)
  | obj (kvs : List (String × JVal))

/-- Python `query[field].lower()`: only a string has `.lower` — anything else
raises `AttributeError`. -/
def pyLowerJ : JVal → Except PyErr String
  | .str s => .ok (pyLower s)
  | _ => .error .attributeError

/-- Prefix test on character lists. -/
def isPrefixCh : List Char → List Char → Bool
  | [], _ => true
  | _ :: _, [] => false
  | a :: as, b :: bs => a == b && isPrefixCh as bs

/-- Substring test on character lists (Python `needle in hay` for `str`). -/
def containsSub : List Char → List Char → Bool
  | [], n => n.isEmpty
  | h :: hs, n => isPrefixCh n (h :: hs) || containsSub hs n

/-- Python `k in v`: key test on a dict, membership on a list, substring test
on a string; `TypeError` on non-container values. -/
def pyInContains (v : JVal) (k : String) : Except PyErr Bool :=
  match v with
  | .obj kvs => .ok (kvs.any (fun p => p.1 == k))
  | .list xs => .ok (xs.any (fun x => match x with
      | .str s => s == k
      | _ => false))
  | .str s => .ok (containsSub s.data k.data)
  | _ => .error .typeError

/-- Python `v[k]` with a string key: only a dict supports it (`KeyError` when
absent); indexing a list or string with a string key raises `TypeError`. -/
def pyIndex (v : JVal) (k : String) : Except PyErr JVal :=
  match v with
  | .obj kvs =>
      match alGet kvs k with
      | some x => .ok x
      | none => .error .keyError
  | _ => .error .typeError

/-- Python `n > v` for an `int` left operand: comparing with a non-number
raises `TypeError` (`bool` counts as 0/1). -/
def pyGtIntJ (n : Int) (v : JVal) : Except PyErr Bool :=
  match v with
  | .int m => .ok (n > m)
  | .bool b => .ok (n > (if b then (1 : Int) else 0))
  | _ => .error .typeError

/-- Python `n < v` for an `int` left operand (see `pyGtIntJ`). -/
def pyLtIntJ (n : Int) (v : JVal) : Except PyErr Bool :=
  match v with
  | .int m => .ok (n < m)
  | .bool b => .ok (n < (if b then (1 : Int) else 0))
  | _ => .error .typeError

/-- Python `int(v)`: an `int` stays, a `bool` becomes 0/1, a string is parsed
(`ValueError` when unparsable), anything else raises `TypeError`. -/
def pyToIntJ (v : JVal) : Except PyErr Int :=
  match v with
  | .int m => .ok m
  | .bool b => .ok (if b then 1 else 0)
  | .str s =>
      match pyInt? s with
      | some m => .ok m
      | none => .error .valueError
  | _ => .error .typeError

/-- Python `fact == queryValue` for an optional string fact against a JSON
value (`None == None` is true; any other mixed comparison is false and does
not raise). -/
def jvalEqOptStr (o : Option String) (v : JVal) : Bool :=
  match o, v with
  | some s, .str t => s == t
  | none, .null => true
  | _, _ => false

/-- The parsed `search-meta` query document: each field optional, its value
an arbitrary JSON value (the program checks shapes only at evaluation). -/
structure Query where
  type : Option JVal := none
  size : Option JVal := none
  ageDays : Option JVal := none
  tags : Option JVal := none
  mood : Option JVal := none
  mood_name : Option JVal := none

/-- One file as seen by a traversal: its basename, whether `os.path.isfile`
holds, whether `os.stat` raises, and its stat facts (size in bytes,
modification time in microseconds). -/
structure FileEntry where
  name : String
  isFile : Bool
  statFails : Bool
  size : Int
  modTime : Int
deriving DecidableEq

/-- One directory visited by `os.walk`: its path, subdirectory names, its
sidecar document (already loaded — empty when missing), and its files. -/
structure WalkDir where
  root : String
  subdirs : List String
  doc : Doc
  files : List FileEntry

/-- `_is_file_older_than` (main.py lines 145-153):
`datetime.now() - mod_time > timedelta(days=days)`, strictly greater, at
microsecond precision. (Its `OSError` branch is covered by the caller's
stat-failure gate: the same `os.stat` has already succeeded.) -/
def isFileOlderThan (now modTime days : Int) : Bool :=
  now - modTime > days * usPerDay

/-- The `type` clause of `search_meta` (main.py line 506):
`file_metadata["type"] != query["type"].lower()` clears the match. -/
def checkType (q : Query) (ftype : String) (m : Bool) : Except PyErr Bool :=
  match q.type with
  | none => .ok m
  | some v =>
      match pyLowerJ v with
      | .error e => .error e
      | .ok s => .ok (m && (ftype == s))

/-- The `gt` half of the `size` clause (main.py lines 510-511). -/
def checkSizeGt (v : JVal) (size : Int) (m : Bool) : Except PyErr Bool :=
  match pyInContains v ("gt") with
  | .error e => .error e
  | .ok hg =>
      if hg then
        match pyIndex v ("gt") with
        | .error e => .error e
        | .ok x =>
            match pyGtIntJ size x with
            | .error e => .error e
            | .ok b => .ok (m && b)
      else .ok m

/-- The `lt` half of the `size` clause (main.py lines 512-513). -/
def checkSizeLt (v : JVal) (size : Int) (m : Bool) : Except PyErr Bool :=
  match pyInContains v ("lt") with
  | .error e => .error e
  | .ok hl =>
      if hl then
        match pyIndex v ("lt") with
        | .error e => .error e
        | .ok x =>
            match pyLtIntJ size x with
            | .error e => .error e
            | .ok b => .ok (m && b)
      else .ok m

/-- The `size` clause of `search_meta` (main.py lines 509-513): `gt` then
`lt`, each a strict comparison on the byte count. -/
def checkSize (q : Query) (size : Int) (m : Bool) : Except PyErr Bool :=
  match q.size with
  | none => .ok m
  | some v =>
      match checkSizeGt v size m with
      | .error e => .error e
      | .ok ma => checkSizeLt v size ma

/-- The `ageDays` clause of `search_meta` (main.py lines 515-518):
`int(query["ageDays"])` then `_is_file_older_than`. -/
def checkAge (q : Query) (now modTime : Int) (m : Bool) : Except PyErr Bool :=
  match q.ageDays with
  | none => .ok m
  | some v =>
      match pyToIntJ v with
      | .error e => .error e
      | .ok n => .ok (m && isFileOlderThan now modTime n)

/-- The `tags` clause of `search_meta` (main.py lines 520-525): a list
requires every listed tag present, a single string requires that tag; any
other value matches neither `isinstance` branch and is silently ignored. -/
def checkTags (q : Query) (ftags : List String) (m : Bool) :
    Except PyErr Bool :=
  match q.tags with
  | none => .ok m
  | some (.list xs) => .ok (m && xs.all (fun x => match x with
      | .str s => ftags.contains s
      | _ => false))
  | some (.str s) => .ok (m && ftags.contains s)
  | some _ => .ok m

/-- The `mood` clause of `search_meta` (main.py line 527): the stored mood
value must equal the lowercased query value. -/
def checkMood (q : Query) (fmood : Option String) (m : Bool) :
    Except PyErr Bool :=
  match q.mood with
  | none => .ok m
  | some v =>
      match pyLowerJ v with
      | .error e => .error e
      | .ok s => .ok (m && (fmood == some s))

/-- The `mood_name` clause of `search_meta` (main.py line 530): plain `!=`,
case-sensitive, never raising. -/
def checkMoodName (q : Query) (fmoodName : Option String) (m : Bool) :
    Except PyErr Bool :=
  match q.mood_name with
  | none => .ok m
  | some v => .ok (m && jvalEqOptStr fmoodName v)

/-- The per-entry `try`-body of `search_meta` (main.py lines 486-535):
`os.stat` first (an `OSError` aborts the entry), then the fact set, then
every query clause in source order — each clause runs even when the match is
already false, so its errors still fire. -/
def evalEntryBody (now : Int) (q : Query) (doc : Doc) (f : FileEntry) :
    Except PyErr Bool :=
  if f.statFails then .error .osError
  else
    match checkType q (extOf f.name) true with
    | .error e => .error e
    | .ok m1 =>
        match checkSize q f.size m1 with
        | .error e => .error e
        | .ok m2 =>
            match checkAge q now f.modTime m2 with
            | .error e => .error e
            | .ok m3 =>
                match checkTags q ((( alGet doc f.name).map
                    Entry.tags).getD []) m3 with
                | .error e => .error e
                | .ok m4 =>
                    match checkMood q (((alGet doc f.name).bind
                        Entry.mood).bind Mood.value) m4 with
                    | .error e => .error e
                    | .ok m5 =>
                        checkMoodName q (((alGet doc f.name).bind
                          Entry.mood).bind Mood.name) m5

/-- One file of the `search_meta` walk (main.py lines 481-540): skip
non-files and the sidecar file, evaluate the entry, record the match; the
handlers catch `OSError` and `ValueError` (skipping the entry), every other
exception propagates and aborts the command. -/
def evalFile (now : Int) (q : Query) (root : String) (doc : Doc)
    (f : FileEntry) : Except PyErr (Option (String × String)) :=
  if !f.isFile || f.name == METADATA_FILE then .ok none
  else
    match evalEntryBody now q doc f with
    | .ok true => .ok (some (root, f.name))
    | .ok false => .ok none
    | .error .osError => .ok none
    | .error .valueError => .ok none
    | .error e => .error e

/-- The inner file loop of `search_meta` for one directory, collecting
matches as (directory, filename) pairs. -/
def searchMetaFiles (now : Int) (q : Query) (root : String) (doc : Doc) :
    List FileEntry → Except PyErr (List (String × String))
  | [] => .ok []
  | f :: rest =>
      match evalFile now q root doc f with
      | .error e => .error e
      | .ok r =>
          match searchMetaFiles now q root doc rest with
          | .error e => .error e
          | .ok rs => .ok (match r with
              | some p => p :: rs
              | none => rs)

/-- `search_meta` (main.py lines 461-542) over an `os.walk` traversal: one
document load per directory, every file evaluated, matches accumulated; an
uncaught per-entry exception aborts the whole walk. -/
def searchMeta (now : Int) (q : Query) :
    List WalkDir → Except PyErr (List (String × String))
  | [] => .ok []
  | wd :: rest =>
      match searchMetaFiles now q wd.root wd.doc wd.files with
      | .error e => .error e
      | .ok rs =>
          match searchMeta now q rest with
          | .error e => .error e
          | .ok rs2 => .ok (rs ++ rs2)

/-- The inner file loop of `search_tag` (main.py lines 450-458): skip the
sidecar name, report files whose stored entry contains the tag. -/
def searchTagFiles (tag : String) (root : String) (doc : Doc) :
    List FileEntry → List (String × String)
  | [] => []
  | f :: rest =>
      let rest' := searchTagFiles tag root doc rest
      if f.name == METADATA_FILE then rest'
      else
        match alGet doc f.name with
        | some e => if e.tags.contains tag then (root, f.name) :: rest'
            else rest'
        | none => rest'

/-- `search_tag` (main.py lines 437-459) over an `os.walk` traversal. -/
def searchTag (tag : String) : List WalkDir → List (String × String)
  | [] => []
  | wd :: rest => searchTagFiles tag wd.root wd.doc wd.files ++
      searchTag tag rest

/-- One file record of the `export_map` catalog: stat facts merged with the
stored entry when one exists (`file_info.update(folder_metadata[f])`). -/
structure FileRecord where
  name : String
  size : Int
  modTime : Int
  ftype : String
  stored : Option Entry
deriving DecidableEq

/-- One directory record of the `export_map` catalog. -/
structure DirRecord where
  key : String
  subdirectories : List String
  mood : Option Mood
  files : List FileRecord
deriving DecidableEq

/-- The file loop of `export_map` (main.py lines 666-685): skip the sidecar
file; a stat failure only warns and skips that file. -/
def exportFiles (doc : Doc) : List FileEntry → List FileRecord
  | [] => []
  | f :: rest =>
      let rest' := exportFiles doc rest
      if f.name == METADATA_FILE then rest'
      else if f.statFails then rest'
      else ⟨f.name, f.size, f.modTime, extOf f.name, alGet doc f.name⟩ ::
        rest'

/-- `export_map` (main.py lines 637-695): one record per visited directory —
subdirectories (the reserved name excluded), the directory mood when set,
and the per-file records. -/
def exportMap : List WalkDir → List DirRecord
  | [] => []
  | wd :: rest =>
      ⟨wd.root, wd.subdirs.filter (fun d => !(d == METADATA_DIRNAME)),
        (alGet wd.doc FOLDER_KEY).bind Entry.mood,
        exportFiles wd.doc wd.files⟩ :: exportMap rest

/-- One file of a `deduplicate` walk: location, whether `os.path.isfile`
holds, its content when readable (`none` = `get_file_hash` hits an `IOError`
and returns `None`), and whether `os.remove` would fail on it. The content
stands in for its SHA-256 digest (an injective fingerprint). -/
structure DFile where
  root : String
  name : String
  isFile : Bool
  content : Option String
  removeFails : Bool
deriving DecidableEq

/-- `os.path.join(root, filename)`. -/
def dpath (f : DFile) : String :=
  f.root ++ ("/") ++ f.name

/-- The state of a `deduplicate` scan: the digest → first-seen-path map, the
reported (duplicate, original) pairs, and the deleted paths. -/
structure DedupState where
  hashes : List (String × String)
  reported : List (String × String)
  deleted : List String
deriving DecidableEq

/-- One iteration of `deduplicate`'s loop (main.py lines 362-380): skip
non-files; a failed hash (`None`) skips the file entirely; a digest seen
before reports a duplicate of the first-seen path and, outside dry-run,
deletes the file (a removal failure is reported and the scan continues); an
unseen digest records this file as first seen. There is no check against
`METADATA_FILE` in this loop. -/
def dedupStep (dryRun : Bool) (st : DedupState) (f : DFile) : DedupState :=
  if !f.isFile then st
  else
    match f.content with
    | none => st
    | some h =>
        match alGet st.hashes h with
        | some orig =>
            if dryRun then
              ⟨st.hashes, st.reported ++ [(dpath f, orig)], st.deleted⟩
            else if f.removeFails then
              ⟨st.hashes, st.reported ++ [(dpath f, orig)], st.deleted⟩
            else
              ⟨st.hashes, st.reported ++ [(dpath f, orig)],
                st.deleted ++ [dpath f]⟩
        | none => ⟨st.hashes ++ [(h, dpath f)], st.reported, st.deleted⟩

/-- `deduplicate` (main.py lines 348-382) over the walk's file enumeration
order. -/
def deduplicate (dryRun : Bool) (files : List DFile) : DedupState :=
  files.foldl (dedupStep dryRun) ⟨[], [], []⟩

/-- Helper lemma: updating a key then reading it back yields the new value
(Python dict semantics). -/
theorem alGet_alSet_self {β : Type} (l : List (String × β)) (k : String)
    (v : β) : alGet (alSet l k v) k = some v := by
  induction l with
  | nil => simp [alSet, alGet]
  | cons p rest ih =>
      obtain ⟨k1, w⟩ := p
      by_cases h : k1 = k
      · simp [alSet, h, alGet]
      · simp [alSet, h, alGet, ih]

/-- Helper lemma: `listCharLt` is irreflexive. -/
theorem listCharLt_irrefl (l : List Char) : listCharLt l l = false := by
  induction l with
  | nil => rfl
  | cons a as ih => simp [listCharLt, ih]

/-- Helper lemma: `listCharLt` is asymmetric. -/
theorem listCharLt_asymm (l1 l2 : List Char) (h : listCharLt l1 l2 = true) :
    listCharLt l2 l1 = false := by
  induction l1 generalizing l2 with
  | nil =>
      cases l2 with
      | nil => exact absurd h (by simp [listCharLt])
      | cons b bs => rfl
  | cons a as ih =>
      cases l2 with
      | nil => exact absurd h (by simp [listCharLt])
      | cons b bs =>
          simp only [listCharLt] at h ⊢
          by_cases h1 : a.toNat < b.toNat
          · have h2 : ¬ b.toNat < a.toNat := by omega
            simp [h1, h2]
          · by_cases h2 : b.toNat < a.toNat
            · simp [h1, h2] at h
            · simp only [h1, h2, if_false] at h ⊢
              exact ih bs h

/-- Helper lemma: `listCharLt` is transitive. -/
theorem listCharLt_trans (l1 l2 l3 : List Char)
    (h12 : listCharLt l1 l2 = true) (h23 : listCharLt l2 l3 = true) :
    listCharLt l1 l3 = true := by
  induction l1 generalizing l2 l3 with
  | nil =>
      cases l2 with
      | nil => exact absurd h12 (by simp [listCharLt])
      | cons b bs =>
          cases l3 with
          | nil => exact absurd h23 (by simp [listCharLt])
          | cons c cs => rfl
  | cons a as ih =>
      cases l2 with
      | nil => exact absurd h12 (by simp [listCharLt])
      | cons b bs =>
          cases l3 with
          | nil => exact absurd h23 (by simp [listCharLt])
          | cons c cs =>
              simp only [listCharLt] at h12 h23 ⊢
              by_cases hab : a.toNat < b.toNat
              · by_cases hbc : b.toNat < c.toNat
                · have : a.toNat < c.toNat := by omega
                  simp [this]
                · by_cases hcb : c.toNat < b.toNat
                  · simp [hbc, hcb] at h23
                  · have : a.toNat < c.toNat := by omega
                    simp [this]
              · by_cases hba : b.toNat < a.toNat
                · simp [hab, hba] at h12
                · by_cases hbc : b.toNat < c.toNat
                  · have : a.toNat < c.toNat := by omega
                    simp [this]
                  · by_cases hcb : c.toNat < b.toNat
                    · simp [hbc, hcb] at h23
                    · have h1 : ¬ a.toNat < c.toNat := by omega
                      have h2 : ¬ c.toNat < a.toNat := by omega
                      simp only [hab, hba, if_false] at h12
                      simp only [hbc, hcb, if_false] at h23
                      simp only [h1, h2, if_false]
                      exact ih bs cs h12 h23

/-- Helper lemma: `listCharLt` is total on distinct lists. -/
theorem listCharLt_connex (l1 l2 : List Char) (h : l1 ≠ l2) :
    listCharLt l1 l2 = true ∨ listCharLt l2 l1 = true := by
  induction l1 generalizing l2 with
  | nil =>
      cases l2 with
      | nil => exact absurd rfl h
      | cons b bs => exact Or.inl rfl
  | cons a as ih =>
      cases l2 with
      | nil => exact Or.inr rfl
      | cons b bs =>
          by_cases hab : a.toNat < b.toNat
          · exact Or.inl (by simp [listCharLt, hab])
          · by_cases hba : b.toNat < a.toNat
            · exact Or.inr (by simp [listCharLt, hba])
            · have hv : a = b := by
                have hn : a.toNat = b.toNat := by omega
                have ha := Char.ofNat_toNat a
                have hb := Char.ofNat_toNat b
                rw [← ha, ← hb, hn]
              subst hv
              have hne : as ≠ bs := fun he => h (by rw [he])
              rcases ih bs hne with h1 | h1
              · exact Or.inl (by simp [listCharLt, h1])
              · exact Or.inr (by simp [listCharLt, h1])

/-- Helper lemma: `strLt` is irreflexive. -/
theorem strLt_irrefl (x : String) : strLt x x = false :=
  listCharLt_irrefl x.data

/-- Helper lemma: `strLt` is asymmetric. -/
theorem strLt_asymm (x y : String) (h : strLt x y = true) :
    strLt y x = false :=
  listCharLt_asymm x.data y.data h

/-- Helper lemma: `strLt` is transitive. -/
theorem strLt_trans (x y z : String) (h1 : strLt x y = true)
    (h2 : strLt y z = true) : strLt x z = true :=
  listCharLt_trans x.data y.data z.data h1 h2

/-- Helper lemma: `strLt` is total on distinct strings. -/
theorem strLt_connex (x y : String) (h : x ≠ y) :
    strLt x y = true ∨ strLt y x = true := by
  refine listCharLt_connex x.data y.data ?_
  intro he
  apply h
  cases x
  cases y
  exact congrArg String.mk he

/-- Helper lemma: membership in `insertS`. -/
theorem insertS_mem (x a : String) (l : List String) :
    x ∈ insertS a l ↔ x = a ∨ x ∈ l := by
  induction l with
  | nil => simp [insertS]
  | cons y ys ih =>
      by_cases h1 : a = y
      · simp only [insertS, if_pos h1]
        subst h1
        simp only [List.mem_cons]
        tauto
      · by_cases h2 : strLt a y = true
        · simp only [insertS, if_neg h1, if_pos h2, List.mem_cons]
        · simp only [insertS, if_neg h1, if_neg h2, List.mem_cons, ih]
          tauto

/-- Helper lemma: `insertS` preserves strict sortedness. -/
theorem insertS_sorted (a : String) (l : List String)
    (h : l.Pairwise (fun u v => strLt u v = true)) :
    (insertS a l).Pairwise (fun u v => strLt u v = true) := by
  induction l with
  | nil => simp [insertS]
  | cons y ys ih =>
      rw [List.pairwise_cons] at h
      by_cases h1 : a = y
      · simp only [insertS, if_pos h1]
        exact List.pairwise_cons.mpr h
      · by_cases h2 : strLt a y = true
        · simp only [insertS, if_neg h1, if_pos h2]
          rw [List.pairwise_cons]
          refine ⟨?_, List.pairwise_cons.mpr h⟩
          intro b hb
          rcases List.mem_cons.mp hb with hb | hb
          · exact hb ▸ h2
          · exact strLt_trans a y b h2 (h.1 b hb)
        · have hya : strLt y a = true := by
            rcases strLt_connex a y h1 with h3 | h3
            · exact absurd h3 h2
            · exact h3
          simp only [insertS, if_neg h1, if_neg h2]
          rw [List.pairwise_cons]
          refine ⟨?_, ih h.2⟩
          intro b hb
          rcases (insertS_mem b a ys).mp hb with hb | hb
          · exact hb ▸ hya
          · exact h.1 b hb

/-- Helper lemma: membership in the canonical form. -/
theorem sortDedup_mem (x : String) (l : List String) :
    x ∈ sortDedup l ↔ x ∈ l := by
  induction l with
  | nil => simp [sortDedup]
  | cons y ys ih => simp [sortDedup, insertS_mem, ih]

/-- Helper lemma: the canonical form is strictly sorted. -/
theorem sortDedup_sorted (l : List String) :
    (sortDedup l).Pairwise (fun u v => strLt u v = true) := by
  induction l with
  | nil => simp [sortDedup]
  | cons y ys ih => exact insertS_sorted y (sortDedup ys) ih

/-- Helper lemma: strictly sorted lists with the same members are equal — the
canonical form represents a Python set uniquely. -/
theorem strSorted_ext (l1 : List String) : ∀ l2 : List String,
    l1.Pairwise (fun u v => strLt u v = true) →
    l2.Pairwise (fun u v => strLt u v = true) →
    (∀ x, x ∈ l1 ↔ x ∈ l2) → l1 = l2 := by
  induction l1 with
  | nil =>
      intro l2 _ _ hm
      cases l2 with
      | nil => rfl
      | cons b bs =>
          exact absurd ((hm b).mpr (List.mem_cons_self b bs)) (by simp)
  | cons a as ih =>
      intro l2 h1 h2 hm
      cases l2 with
      | nil => exact absurd ((hm a).mp (List.mem_cons_self a as)) (by simp)
      | cons b bs =>
          rw [List.pairwise_cons] at h1 h2
          have hab : a = b := by
            rcases List.mem_cons.mp ((hm a).mp (List.mem_cons_self a as))
              with h | h
            · exact h
            · rcases List.mem_cons.mp ((hm b).mpr (List.mem_cons_self b bs))
                with h5 | h5
              · exact h5.symm
              · have hba := h1.1 b h5
                have hab2 := h2.1 a h
                rw [strLt_asymm b a hab2] at hba
                exact absurd hba (by simp)
          subst hab
          have hm2 : ∀ x, x ∈ as ↔ x ∈ bs := by
            intro x
            constructor
            · intro hx
              rcases List.mem_cons.mp ((hm x).mp
                  (List.mem_cons_of_mem a hx)) with h | h
              · subst h
                have := h1.1 x hx
                rw [strLt_irrefl x] at this
                exact absurd this (by simp)
              · exact h
            · intro hx
              rcases List.mem_cons.mp ((hm x).mpr
                  (List.mem_cons_of_mem a hx)) with h | h
              · subst h
                have := h2.1 x hx
                rw [strLt_irrefl x] at this
                exact absurd this (by simp)
              · exact h
          rw [ih bs h1.2 h2.2 hm2]

/-- Helper lemma: canonicalizing a strictly sorted list is the identity. -/
theorem sortDedup_of_sorted (l : List String)
    (h : l.Pairwise (fun u v => strLt u v = true)) : sortDedup l = l := by
  refine strSorted_ext _ l (sortDedup_sorted l) h ?_
  intro x
  exact sortDedup_mem x l

/-- Helper lemma: membership in a Python set union. -/
theorem mem_pyUnion (x : String) (a b : List String) :
    x ∈ pyUnion a b ↔ x ∈ a ∨ x ∈ b := by
  simp [pyUnion, sortDedup_mem]

/-- Helper lemma: membership in a Python set difference. -/
theorem mem_pyDiff (x : String) (a b : List String) :
    x ∈ pyDiff a b ↔ x ∈ a ∧ x ∉ b := by
  simp [pyDiff, sortDedup_mem, List.mem_filter, List.elem_iff]

/-- Helper lemma: `(current ∪ add) \ remove` is a fixed point of applying the
same add/remove delta again. -/
theorem pyDelta_reapply (C A R : List String) :
    pyDiff (pyUnion (pyDiff (pyUnion C A) R) A) R =
      pyDiff (pyUnion C A) R := by
  refine strSorted_ext _ _ (sortDedup_sorted _) (sortDedup_sorted _) ?_
  intro x
  simp only [mem_pyDiff, mem_pyUnion]
  tauto

/-- Claim C1, counterexample: `_save_metadata` is not all-or-nothing. With
prior sidecar content `"prior"` on disk, a failure during `json.dump` (after
the successful truncating `open`) leaves the empty string on disk: the prior
content is destroyed, and the full new serialization is not present either. -/
theorem save_not_atomic_cex :
    (saveMetadataRun ⟨true, some ("prior")⟩ [(("f"), ⟨[("a")], none⟩)]
        (.writeFail 0)).disk ≠ some ("prior") ∧
    (saveMetadataRun ⟨true, some ("prior")⟩ [(("f"), ⟨[("a")], none⟩)]
        (.writeFail 0)).disk ≠
      some (serialize [(("f"), ⟨[("a")], none⟩)]) := by
  constructor <;> decide

/-- Claim C1 (amended): `_save_metadata` (re)creates the owning directory
first, and if directory creation or the truncating `open` itself fails the
prior on-disk sidecar content is left untouched; but the file is opened in
truncating write mode, so a failure during serialization leaves a prefix of
the new serialization on disk — the prior content is destroyed and a partial
document can be visible after a failed write. -/
theorem save_write_semantics (st : SidecarDisk) (d : Doc) (k : Nat) :
    (saveMetadataRun st d .makedirsFail) = st ∧
    (saveMetadataRun st d .openFail).disk = st.disk ∧
    (saveMetadataRun st d .openFail).dirExists = true ∧
    (saveMetadataRun st d (.writeFail k)).disk =
      some ((serialize d).take k) ∧
    (saveMetadataRun st d (.writeFail k)).dirExists = true ∧
    (saveMetadataRun st d .ok) = ⟨true, some (serialize d)⟩ :=
  ⟨rfl, rfl, rfl, rfl, rfl, rfl⟩

/-- Claim C7: `_load_metadata` never fails. For every parser behaviour and
every on-disk situation it returns a document; on a missing file, an
all-whitespace (empty) file, unparsable content, an I/O error, or any other
read error it returns the empty document, and no exception escapes to the
caller. -/
theorem load_metadata_total (parse : String → Option Doc) :
    (∀ f : SidecarFile, ∃ d : Doc, loadMetadata parse f = .ok d) ∧
    loadMetadata parse .missing = .ok [] ∧
    (∀ s : String, pyStrip s = "" →
      loadMetadata parse (.content s) = .ok []) ∧
    (∀ s : String, parse (pyStrip s) = none →
      loadMetadata parse (.content s) = .ok []) ∧
    loadMetadata parse .ioError = .ok [] ∧
    loadMetadata parse .otherError = .ok [] := by
  refine ⟨?_, rfl, ?_, ?_, rfl, rfl⟩
  · intro f
    cases f with
    | missing => exact ⟨[], rfl⟩
    | content s =>
        by_cases h : pyStrip s = ""
        · exact ⟨[], by simp [loadMetadata, loadBody, h]⟩
        · cases hp : parse (pyStrip s) with
          | none => exact ⟨[], by simp [loadMetadata, loadBody, h, hp]⟩
          | some d => exact ⟨d, by simp [loadMetadata, loadBody, h, hp]⟩
    | ioError => exact ⟨[], rfl⟩
    | otherError => exact ⟨[], rfl⟩
  · intro s h
    simp [loadMetadata, loadBody, h]
  · intro s hp
    by_cases h : pyStrip s = ""
    · simp [loadMetadata, loadBody, h]
    · simp [loadMetadata, loadBody, h, hp]

/-- Witness for `load_metadata_total` at a concrete parser (one that always
fails) and the concrete unparsable content `"not json"`. -/
theorem load_metadata_total_witness :
    loadMetadata (fun _ => none) (.content ("not json")) = .ok [] := by
  have h := load_metadata_total (fun _ => none)
  exact h.2.2.2.1 ("not json") rfl

/-- Helper lemma: a skipped target (non-file or the sidecar itself) leaves
the state untouched. -/
theorem tagStep_skip (A R : List String) (st : TagState) (t : Target)
    (hp : processedTarget t = false) : tagStep A R st t = st := by
  simp [tagStep, hp]

/-- Helper lemma: a processed target adds exactly one load and at most one
save. -/
theorem tagStep_processed_counts (A R : List String) (st : TagState)
    (t : Target) (hp : processedTarget t = true) :
    (tagStep A R st t).loads = st.loads + 1 ∧
    (tagStep A R st t).saves ≤ st.saves + 1 := by
  unfold tagStep
  rw [if_pos hp]
  dsimp only
  constructor
  · split
    · rfl
    · rfl
  · split
    · exact Nat.le_succ _
    · exact Nat.le_refl _

/-- Helper lemma: across a whole `tag_file` loop, the load counter increases
by the number of processed targets and the save counter by at most that. -/
theorem tagFold_counts (A R : List String) (ts : List Target) :
    ∀ st : TagState,
      (ts.foldl (tagStep A R) st).loads =
        st.loads + (ts.filter processedTarget).length ∧
      (ts.foldl (tagStep A R) st).saves ≤
        st.saves + (ts.filter processedTarget).length := by
  induction ts with
  | nil => intro st; simp
  | cons t ts ih =>
      intro st
      rw [List.foldl_cons, List.filter_cons]
      by_cases hp : processedTarget t = true
      · have hstep := tagStep_processed_counts A R st t hp
        have hih := ih (tagStep A R st t)
        rw [if_pos hp]
        constructor
        · rw [hih.1, hstep.1, List.length_cons]
          omega
        · have h2 := hih.2
          have h3 := hstep.2
          rw [List.length_cons]
          omega
      · have hb : processedTarget t = false := by
          cases hq : processedTarget t
          · rfl
          · exact absurd hq hp
        rw [tagStep_skip A R st t hb, if_neg hp]
        exact ih st

/-- Claim C4, counterexample: tagging four files spread over two directories
with one new tag performs four loads and four saves — one load and one save
per file — not exactly one load (two here) and at most one save (at most two
here) per distinct owning directory. -/
theorem tag_per_file_io_cex :
    (tagFile [⟨("d1"), ("f1"), true⟩, ⟨("d1"), ("f2"), true⟩,
        ⟨("d2"), ("g1"), true⟩, ⟨("d2"), ("g2"), true⟩]
        ("a") ("") []).loads = 4 ∧
    (tagFile [⟨("d1"), ("f1"), true⟩, ⟨("d1"), ("f2"), true⟩,
        ⟨("d2"), ("g1"), true⟩, ⟨("d2"), ("g2"), true⟩]
        ("a") ("") []).saves = 4 ∧
    ¬ ((tagFile [⟨("d1"), ("f1"), true⟩, ⟨("d1"), ("f2"), true⟩,
          ⟨("d2"), ("g1"), true⟩, ⟨("d2"), ("g2"), true⟩]
          ("a") ("") []).loads = 2 ∧
       (tagFile [⟨("d1"), ("f1"), true⟩, ⟨("d1"), ("f2"), true⟩,
          ⟨("d2"), ("g1"), true⟩, ⟨("d2"), ("g2"), true⟩]
          ("a") ("") []).saves ≤ 2) := by
  refine ⟨by decide, by decide, ?_⟩
  intro h
  have := h.1
  revert this
  decide

/-- Claim C4 (amended): `tag_file` performs exactly one metadata load per
processed target (each regular file other than the sidecar), and at most one
save per processed target — per-file granularity, not one load and at most
one save per distinct owning directory. -/
theorem tag_io_per_file (targets : List Target) (a r : String)
    (fs : List (String × Doc)) :
    (tagFile targets a r fs).loads =
      (targets.filter processedTarget).length ∧
    (tagFile targets a r fs).saves ≤ (tagFile targets a r fs).loads := by
  have h := tagFold_counts (parseTags a) (parseTags r) targets ⟨fs, 0, 0⟩
  have h1 := h.1
  have h2 := h.2
  simp at h1 h2
  unfold tagFile
  constructor
  · exact h1
  · omega

/-- Helper lemma: a single processed target whose delta does not change the
tag set performs the load but no save and leaves the filesystem as it was. -/
theorem tagFile_single_unchanged (dir fn a r : String)
    (fs : List (String × Doc)) (hfn : fn ≠ METADATA_FILE)
    (hch : pyDiff (pyUnion (sortDedup ((alGet ((alGet fs dir).getD []) fn).getD
          ⟨[], none⟩).tags) (parseTags a)) (parseTags r) =
        sortDedup ((alGet ((alGet fs dir).getD []) fn).getD ⟨[], none⟩).tags) :
    tagFile [⟨dir, fn, true⟩] a r fs = ⟨fs, 1, 0⟩ := by
  have hp : processedTarget ⟨dir, fn, true⟩ = true := by
    simp [processedTarget, hfn]
  simp [tagFile, tagStep, hp, hch]

/-- Helper lemma: a single processed target whose delta changes the tag set
saves the updated document (the file's tags replaced by the canonical form of
the new set, other entry fields kept) and counts one load and one save. -/
theorem tagFile_single_changed (dir fn a r : String)
    (fs : List (String × Doc)) (hfn : fn ≠ METADATA_FILE)
    (hch : pyDiff (pyUnion (sortDedup ((alGet ((alGet fs dir).getD []) fn).getD
          ⟨[], none⟩).tags) (parseTags a)) (parseTags r) ≠
        sortDedup ((alGet ((alGet fs dir).getD []) fn).getD ⟨[], none⟩).tags) :
    tagFile [⟨dir, fn, true⟩] a r fs =
      ⟨alSet fs dir (alSet ((alGet fs dir).getD []) fn
        ⟨pyDiff (pyUnion (sortDedup ((alGet ((alGet fs dir).getD []) fn).getD
            ⟨[], none⟩).tags) (parseTags a)) (parseTags r),
         ((alGet ((alGet fs dir).getD []) fn).getD ⟨[], none⟩).mood⟩),
       1, 1⟩ := by
  have hp : processedTarget ⟨dir, fn, true⟩ = true := by
    simp [processedTarget, hfn]
  simp [tagFile, tagStep, hp, hch]

/-- Claim C6, counterexample: the claim asserts that applying the same
(add, remove) delta twice always performs exactly one on-disk write; for the
empty delta on an untagged file both applications are no-ops, so zero writes
occur, not one. -/
theorem idempotent_delta_zero_writes_cex :
    (tagFile [⟨("d"), ("f"), true⟩] ("") ("") []).saves +
      (tagFile [⟨("d"), ("f"), true⟩] ("") ("")
        (tagFile [⟨("d"), ("f"), true⟩] ("") ("") []).fs).saves = 0 ∧
    (tagFile [⟨("d"), ("f"), true⟩] ("") ("") []).saves +
      (tagFile [⟨("d"), ("f"), true⟩] ("") ("")
        (tagFile [⟨("d"), ("f"), true⟩] ("") ("") []).fs).saves ≠ 1 := by
  constructor <;> decide

/-- Claim C6 (amended): after trimming whitespace and discarding empty
strings, `tag_file` sets the file's stored tags to `(current ∪ add) \ remove`
in deduplicated sorted form, and writes only when that set differs from the
current one; hence applying the same (add, remove) delta twice yields the
same final tag set as applying it once, the second application never writes,
and at most one write occurs in total (exactly one when the first application
changed the set, zero when the delta was already satisfied). -/
theorem apply_tags_delta_spec (dir fn a r : String) (fs : List (String × Doc))
    (hfn : fn ≠ METADATA_FILE) (entry : Entry)
    (he : (alGet ((alGet fs dir).getD []) fn).getD ⟨[], none⟩ = entry)
    (updated : List String)
    (hu : pyDiff (pyUnion (sortDedup entry.tags) (parseTags a))
        (parseTags r) = updated)
    (st1 st2 : TagState)
    (h1 : tagFile [⟨dir, fn, true⟩] a r fs = st1)
    (h2 : tagFile [⟨dir, fn, true⟩] a r st1.fs = st2) :
    (updated ≠ sortDedup entry.tags →
      alGet ((alGet st1.fs dir).getD []) fn = some ⟨updated, entry.mood⟩ ∧
      updated.Pairwise (fun u v => strLt u v = true) ∧
      st1.saves = 1) ∧
    (updated = sortDedup entry.tags → st1 = ⟨fs, 1, 0⟩) ∧
    st2.saves = 0 ∧ st2.fs = st1.fs := by
  have hpair : updated.Pairwise (fun u v => strLt u v = true) := by
    rw [← hu]
    exact sortDedup_sorted _
  by_cases hch : updated = sortDedup entry.tags
  · have hcond : pyDiff (pyUnion (sortDedup ((alGet ((alGet fs dir).getD [])
        fn).getD ⟨[], none⟩).tags) (parseTags a)) (parseTags r) =
        sortDedup ((alGet ((alGet fs dir).getD []) fn).getD ⟨[], none⟩).tags := by
      rw [he, hu]
      exact hch
    have hs1 : st1 = ⟨fs, 1, 0⟩ := by
      rw [← h1]
      exact tagFile_single_unchanged dir fn a r fs hfn hcond
    have hs2 : st2 = ⟨fs, 1, 0⟩ := by
      rw [← h2, hs1]
      exact tagFile_single_unchanged dir fn a r fs hfn hcond
    refine ⟨fun hne => absurd hch hne, fun _ => hs1, by rw [hs2], ?_⟩
    rw [hs2, hs1]
  · have hcond : pyDiff (pyUnion (sortDedup ((alGet ((alGet fs dir).getD [])
        fn).getD ⟨[], none⟩).tags) (parseTags a)) (parseTags r) ≠
        sortDedup ((alGet ((alGet fs dir).getD []) fn).getD ⟨[], none⟩).tags := by
      rw [he, hu]
      exact hch
    have hs1 : st1 = ⟨alSet fs dir (alSet ((alGet fs dir).getD []) fn
        ⟨updated, entry.mood⟩), 1, 1⟩ := by
      rw [← h1, tagFile_single_changed dir fn a r fs hfn hcond, he, hu]
    have hlook : alGet ((alGet st1.fs dir).getD []) fn =
        some ⟨updated, entry.mood⟩ := by
      rw [hs1]
      simp only [alGet_alSet_self, Option.getD_some]
    have hcond2 : pyDiff (pyUnion (sortDedup ((alGet ((alGet st1.fs dir).getD
        []) fn).getD ⟨[], none⟩).tags) (parseTags a)) (parseTags r) =
        sortDedup ((alGet ((alGet st1.fs dir).getD []) fn).getD
          ⟨[], none⟩).tags := by
      rw [hlook]
      simp only [Option.getD_some]
      rw [sortDedup_of_sorted updated hpair, ← hu]
      exact pyDelta_reapply _ _ _
    have hs2 : st2 = ⟨st1.fs, 1, 0⟩ := by
      rw [← h2]
      exact tagFile_single_unchanged dir fn a r st1.fs hfn hcond2
    refine ⟨fun _ => ⟨hlook, hpair, by rw [hs1]⟩, fun he2 => absurd he2 hch,
      by rw [hs2], by rw [hs2]⟩

/-- Witness for `apply_tags_delta_spec`: on a file tagged `{a, b}`, adding
`{b, c}` and removing `{a}` stores exactly `["b", "c"]` with one save, and
re-applying the same delta performs no save. -/
theorem apply_tags_delta_spec_witness :
    alGet ((alGet (tagFile [⟨("d"), ("f"), true⟩] ("b,c") ("a")
        [(("d"), [(("f"), ⟨[("a"), ("b")], none⟩)])]).fs ("d")).getD [])
        ("f") = some ⟨[("b"), ("c")], none⟩ ∧
    (tagFile [⟨("d"), ("f"), true⟩] ("b,c") ("a")
        [(("d"), [(("f"), ⟨[("a"), ("b")], none⟩)])]).saves = 1 ∧
    (tagFile [⟨("d"), ("f"), true⟩] ("b,c") ("a")
        (tagFile [⟨("d"), ("f"), true⟩] ("b,c") ("a")
          [(("d"), [(("f"), ⟨[("a"), ("b")], none⟩)])]).fs).saves = 0 := by
  have h := apply_tags_delta_spec ("d") ("f") ("b,c") ("a")
      [(("d"), [(("f"), ⟨[("a"), ("b")], none⟩)])] (by decide)
      ⟨[("a"), ("b")], none⟩ (by decide) [("b"), ("c")] (by decide)
      _ _ rfl rfl
  have hne : ([("b"), ("c")] : List String) ≠
      sortDedup (Entry.mk [("a"), ("b")] none).tags := by decide
  obtain ⟨hchanged, _, hsecond, _⟩ := h
  obtain ⟨ha, _, hb⟩ := hchanged hne
  exact ⟨ha, hb, hsecond⟩

/-- Claim C5, counterexample: removing a file's last tag leaves an explicit
entry with an empty tag list in the document — the entry is not deleted, so
absence does not encode empty attributes. -/
theorem empty_tags_entry_retained_cex :
    alGet ((alGet (tagFile [⟨("d2"), ("g"), true⟩] ("") ("t")
        [(("d2"), [(("g"), ⟨[("t")], none⟩)])]).fs ("d2")).getD []) ("g") =
      some ⟨[], none⟩ ∧
    alGet ((alGet (tagFile [⟨("d2"), ("g"), true⟩] ("") ("t")
        [(("d2"), [(("g"), ⟨[("t")], none⟩)])]).fs ("d2")).getD []) ("g") ≠
      none := by
  constructor <;> decide

/-- Claim C5 (amended): after a tag operation that changes a file's tag set
to the empty set, the file keeps an explicit entry with an empty tag list
(and its other stored fields); `tag_file` never removes a file's entry from
the document. -/
theorem empty_tags_explicit_record (dir fn a r : String)
    (fs : List (String × Doc)) (hfn : fn ≠ METADATA_FILE) (entry : Entry)
    (he : (alGet ((alGet fs dir).getD []) fn).getD ⟨[], none⟩ = entry)
    (hne : pyDiff (pyUnion (sortDedup entry.tags) (parseTags a))
        (parseTags r) ≠ sortDedup entry.tags)
    (hempty : pyDiff (pyUnion (sortDedup entry.tags) (parseTags a))
        (parseTags r) = []) :
    alGet ((alGet (tagFile [⟨dir, fn, true⟩] a r fs).fs dir).getD []) fn =
      some ⟨[], entry.mood⟩ := by
  have hcond : pyDiff (pyUnion (sortDedup ((alGet ((alGet fs dir).getD [])
      fn).getD ⟨[], none⟩).tags) (parseTags a)) (parseTags r) ≠
      sortDedup ((alGet ((alGet fs dir).getD []) fn).getD ⟨[], none⟩).tags := by
    rw [he]
    exact hne
  rw [tagFile_single_changed dir fn a r fs hfn hcond]
  simp only [alGet_alSet_self, Option.getD_some]
  rw [he, hempty]

/-- Witness for `empty_tags_explicit_record`: removing the only tag `"t"`
from a file tagged `["t"]` leaves the entry `{"tags": []}` in the document. -/
theorem empty_tags_explicit_record_witness :
    alGet ((alGet (tagFile [⟨("d"), ("f"), true⟩] ("") ("t")
        [(("d"), [(("f"), ⟨[("t")], none⟩)])]).fs ("d")).getD []) ("f") =
      some ⟨[], none⟩ := by
  exact empty_tags_explicit_record ("d") ("f") ("") ("t")
    [(("d"), [(("f"), ⟨[("t")], none⟩)])] (by decide)
    ⟨[("t")], none⟩ (by decide) (by decide) (by decide)

/-- Helper lemma: a loop whose delta is a no-op on the empty tag set, run
over directories with no sidecar document, changes nothing and never saves. -/
theorem tagFold_noop (A R : List String)
    (hno : pyDiff (pyUnion [] A) R = []) (ts : List Target) :
    ∀ st : TagState, (∀ t ∈ ts, alGet st.fs t.folder = none) →
      (ts.foldl (tagStep A R) st).fs = st.fs ∧
      (ts.foldl (tagStep A R) st).saves = st.saves := by
  induction ts with
  | nil => intro st _; exact ⟨rfl, rfl⟩
  | cons t ts ih =>
      intro st h
      have hstep : (tagStep A R st t).fs = st.fs ∧
          (tagStep A R st t).saves = st.saves := by
        unfold tagStep
        by_cases hp : processedTarget t = true
        · rw [if_pos hp]
          have habs := h t (List.mem_cons_self t ts)
          rw [habs]
          simp [alGet, sortDedup, hno]
        · rw [if_neg hp]
          exact ⟨rfl, rfl⟩
      have hts : ∀ x ∈ ts, alGet (tagStep A R st t).fs x.folder = none := by
        intro x hx
        rw [hstep.1]
        exact h x (List.mem_cons_of_mem t hx)
      have hrec := ih (tagStep A R st t) hts
      rw [List.foldl_cons]
      exact ⟨hrec.1.trans hstep.1, hrec.2.trans hstep.2⟩

/-- Claim C9: a tag operation whose delta is a no-op (everything added is
also removed), applied to files in directories that have no sidecar
document, leaves the filesystem unchanged and performs no save — no sidecar
file is ever created by a no-op tag operation. -/
theorem noop_tag_no_sidecar_creation (targets : List Target) (a r : String)
    (fs : List (String × Doc))
    (hnoop : pyDiff (pyUnion [] (parseTags a)) (parseTags r) = [])
    (habsent : ∀ t ∈ targets, alGet fs t.folder = none) :
    (tagFile targets a r fs).fs = fs ∧ (tagFile targets a r fs).saves = 0 := by
  have h := tagFold_noop (parseTags a) (parseTags r) hnoop targets
    ⟨fs, 0, 0⟩ habsent
  simpa [tagFile] using h

/-- Witness for `noop_tag_no_sidecar_creation`: adding `x` while removing
`x, y` on a file in a directory with no sidecar leaves the filesystem empty
and performs no save. -/
theorem noop_tag_no_sidecar_creation_witness :
    (tagFile [⟨("d"), ("f"), true⟩] ("x") ("x,y") []).fs = [] ∧
    (tagFile [⟨("d"), ("f"), true⟩] ("x") ("x,y") []).saves = 0 := by
  exact noop_tag_no_sidecar_creation [⟨("d"), ("f"), true⟩] ("x") ("x,y") []
    (by decide) (by decide)

/-- Claim C10: a file whose hash fails (`get_file_hash` returns `None`) is
skipped entirely by deduplication — the scan state is exactly as if the file
were not in the traversal at all: it is never recorded as first-seen,
reported, or deleted, and the remaining files are processed unchanged. -/
theorem dedup_skips_unreadable (dryRun : Bool) (pre post : List DFile)
    (f : DFile) (hf : f.content = none) :
    deduplicate dryRun (pre ++ f :: post) =
      deduplicate dryRun (pre ++ post) := by
  have hstep : ∀ st : DedupState, dedupStep dryRun st f = st := by
    intro st
    unfold dedupStep
    rw [hf]
    split
    · rfl
    · rfl
  unfold deduplicate
  rw [List.foldl_append, List.foldl_cons, hstep, ← List.foldl_append]

/-- Witness for `dedup_skips_unreadable`: an unreadable file between two
identical readable files changes nothing about the scan. -/
theorem dedup_skips_unreadable_witness :
    deduplicate true [⟨("d"), ("a.txt"), true, some ("X"), false⟩,
        ⟨("d"), ("bad.txt"), true, none, false⟩,
        ⟨("d"), ("b.txt"), true, some ("X"), false⟩] =
      deduplicate true [⟨("d"), ("a.txt"), true, some ("X"), false⟩,
        ⟨("d"), ("b.txt"), true, some ("X"), false⟩] := by
  exact dedup_skips_unreadable true
    [⟨("d"), ("a.txt"), true, some ("X"), false⟩]
    [⟨("d"), ("b.txt"), true, some ("X"), false⟩]
    ⟨("d"), ("bad.txt"), true, none, false⟩ rfl

/-- Claim C2, counterexample: `deduplicate` has no check against the
reserved sidecar name — a sidecar metadata file with the same content as an
earlier file is hashed, reported as a duplicate and deleted like any
ordinary file. -/
theorem dedup_deletes_metadata_cex :
    (deduplicate false [⟨("d"), ("a.txt"), true, some ("X"), false⟩,
        ⟨("d"), METADATA_FILE, true, some ("X"), false⟩]).deleted =
      [(("d") ++ ("/") ++ METADATA_FILE)] ∧
    (deduplicate false [⟨("d"), ("a.txt"), true, some ("X"), false⟩,
        ⟨("d"), METADATA_FILE, true, some ("X"), false⟩]).reported =
      [((("d") ++ ("/") ++ METADATA_FILE), (("d") ++ ("/") ++ ("a.txt")))] := by
  constructor <;> rfl

/-- Helper lemma: every hit of `search_tag`'s inner loop names a file other
than the reserved sidecar file. -/
theorem searchTagFiles_not_meta (tag root : String) (doc : Doc) :
    ∀ (files : List FileEntry) (p : String × String),
      p ∈ searchTagFiles tag root doc files → p.2 ≠ METADATA_FILE := by
  intro files
  induction files with
  | nil =>
      intro p hp
      simp [searchTagFiles] at hp
  | cons f rest ih =>
      intro p hp
      simp only [searchTagFiles] at hp
      by_cases hf : (f.name == METADATA_FILE) = true
      · rw [if_pos hf] at hp
        exact ih p hp
      · rw [if_neg hf] at hp
        cases he : alGet doc f.name with
        | none =>
            simp only [he] at hp
            exact ih p hp
        | some e =>
            simp only [he] at hp
            by_cases ht : e.tags.contains tag = true
            · rw [if_pos ht] at hp
              rcases List.mem_cons.mp hp with h1 | h1
              · intro heq
                apply hf
                rw [h1] at heq
                exact beq_iff_eq.mpr heq
              · exact ih p h1
            · rw [if_neg ht] at hp
              exact ih p hp

/-- Helper lemma: a match produced by `evalFile` names the visited file, and
that file is not the reserved sidecar file. -/
theorem evalFile_ok_some (now : Int) (q : Query) (root : String) (doc : Doc)
    (f : FileEntry) (p : String × String)
    (h : evalFile now q root doc f = .ok (some p)) :
    p = (root, f.name) ∧ f.name ≠ METADATA_FILE := by
  unfold evalFile at h
  by_cases hg : (!f.isFile || f.name == METADATA_FILE) = true
  · rw [if_pos hg] at h
    exact absurd h (by simp)
  · rw [if_neg hg] at h
    have hne : f.name ≠ METADATA_FILE := by
      intro heq
      apply hg
      simp [heq]
    cases hev : evalEntryBody now q doc f with
    | ok b =>
        rw [hev] at h
        cases b
        · simp at h
        · simp at h
          exact ⟨h.symm, hne⟩
    | error e =>
        rw [hev] at h
        cases e <;> simp at h

/-- Helper lemma: every match of `search_meta`'s inner loop names a file
other than the reserved sidecar file. -/
theorem searchMetaFiles_not_meta (now : Int) (q : Query) (root : String)
    (doc : Doc) : ∀ (files : List FileEntry)
      (res : List (String × String)) (p : String × String),
      searchMetaFiles now q root doc files = .ok res → p ∈ res →
      p.2 ≠ METADATA_FILE := by
  intro files
  induction files with
  | nil =>
      intro res p h hp
      simp only [searchMetaFiles] at h
      cases h
      simp at hp
  | cons f rest ih =>
      intro res p h hp
      simp only [searchMetaFiles] at h
      cases hev : evalFile now q root doc f with
      | error e =>
          rw [hev] at h
          simp at h
      | ok r =>
          rw [hev] at h
          cases hrec : searchMetaFiles now q root doc rest with
          | error e =>
              rw [hrec] at h
              simp at h
          | ok rs =>
              rw [hrec] at h
              cases r with
              | none =>
                  simp at h
                  subst h
                  exact ih rs p hrec hp
              | some p0 =>
                  simp at h
                  subst h
                  rcases List.mem_cons.mp hp with h1 | h1
                  · obtain ⟨hp0, hne⟩ :=
                      evalFile_ok_some now q root doc f p0 hev
                    rw [h1, hp0]
                    exact hne
                  · exact ih rs p hrec h1

/-- Helper lemma: every match of `search_meta` over a whole walk names a
file other than the reserved sidecar file. -/
theorem searchMeta_not_meta (now : Int) (q : Query) :
    ∀ (walk : List WalkDir) (res : List (String × String))
      (p : String × String),
      searchMeta now q walk = .ok res → p ∈ res → p.2 ≠ METADATA_FILE := by
  intro walk
  induction walk with
  | nil =>
      intro res p h hp
      simp only [searchMeta] at h
      cases h
      simp at hp
  | cons wd rest ih =>
      intro res p h hp
      simp only [searchMeta] at h
      cases hfi : searchMetaFiles now q wd.root wd.doc wd.files with
      | error e =>
          rw [hfi] at h
          simp at h
      | ok rs =>
          rw [hfi] at h
          cases hrec : searchMeta now q rest with
          | error e =>
              rw [hrec] at h
              simp at h
          | ok rs2 =>
              rw [hrec] at h
              simp at h
              subst h
              rcases List.mem_append.mp hp with h1 | h1
              · exact searchMetaFiles_not_meta now q wd.root wd.doc
                  wd.files rs p hfi h1
              · exact ih rs2 p hrec h1

/-- Helper lemma: every file record produced by `export_map`'s file loop
names a file other than the reserved sidecar file. -/
theorem exportFiles_not_meta (doc : Doc) :
    ∀ (files : List FileEntry) (fr : FileRecord),
      fr ∈ exportFiles doc files → fr.name ≠ METADATA_FILE := by
  intro files
  induction files with
  | nil =>
      intro fr hfr
      simp [exportFiles] at hfr
  | cons f rest ih =>
      intro fr hfr
      simp only [exportFiles] at hfr
      by_cases hf : (f.name == METADATA_FILE) = true
      · rw [if_pos hf] at hfr
        exact ih fr hfr
      · rw [if_neg hf] at hfr
        by_cases hs : f.statFails = true
        · rw [if_pos hs] at hfr
          exact ih fr hfr
        · rw [if_neg hs] at hfr
          rcases List.mem_cons.mp hfr with h1 | h1
          · intro heq
            apply hf
            rw [h1] at heq
            exact beq_iff_eq.mpr heq
          · exact ih fr h1

/-- Claim C2 (amended): in metadata search (`search_meta`), tag search
(`search_tag`) and catalog export (`export_map`) the reserved sidecar
metadata file is excluded from being treated as a regular file entry — it is
never matched, reported, or listed. Content deduplication, however, has no
such exclusion (see the counterexample): the sidecar file is hashed like any
file and can be reported and deleted as a duplicate. -/
theorem metadata_excluded_in_search_and_export :
    (∀ (tag : String) (walk : List WalkDir) (p : String × String),
      p ∈ searchTag tag walk → p.2 ≠ METADATA_FILE) ∧
    (∀ (now : Int) (q : Query) (walk : List WalkDir)
        (res : List (String × String)) (p : String × String),
      searchMeta now q walk = .ok res → p ∈ res → p.2 ≠ METADATA_FILE) ∧
    (∀ (walk : List WalkDir) (dr : DirRecord) (fr : FileRecord),
      dr ∈ exportMap walk → fr ∈ dr.files → fr.name ≠ METADATA_FILE) := by
  refine ⟨?_, ?_, ?_⟩
  · intro tag walk
    induction walk with
    | nil =>
        intro p hp
        simp [searchTag] at hp
    | cons wd rest ih =>
        intro p hp
        simp only [searchTag] at hp
        rcases List.mem_append.mp hp with h1 | h1
        · exact searchTagFiles_not_meta tag wd.root wd.doc wd.files p h1
        · exact ih p h1
  · intro now q walk res p h hp
    exact searchMeta_not_meta now q walk res p h hp
  · intro walk
    induction walk with
    | nil =>
        intro dr fr hdr hfr
        simp [exportMap] at hdr
    | cons wd rest ih =>
        intro dr fr hdr hfr
        simp only [exportMap] at hdr
        rcases List.mem_cons.mp hdr with h1 | h1
        · subst h1
          exact exportFiles_not_meta wd.doc wd.files fr hfr
        · exact ih dr fr h1 hfr

/-- Witness for `metadata_excluded_in_search_and_export` on a concrete walk
in which a tag search, a metadata search, and a catalog export each produce
a hit. -/
theorem metadata_excluded_witness :
    ((("d"), ("f.txt")) : String × String).2 ≠ METADATA_FILE ∧
    ((("d"), ("f.txt")) : String × String).2 ≠ METADATA_FILE ∧
    (FileRecord.mk ("f.txt") 5 0 ("txt")
        (some ⟨[("t")], none⟩)).name ≠ METADATA_FILE := by
  have h := metadata_excluded_in_search_and_export
  refine ⟨?_, ?_, ?_⟩
  · exact h.1 ("t")
      [⟨("d"), [], [(("f.txt"), ⟨[("t")], none⟩)],
        [⟨("f.txt"), true, false, 5, 0⟩]⟩] (("d"), ("f.txt")) (by decide)
  · exact h.2.1 0 {}
      [⟨("d"), [], [(("f.txt"), ⟨[("t")], none⟩)],
        [⟨("f.txt"), true, false, 5, 0⟩]⟩] [(("d"), ("f.txt"))]
      (("d"), ("f.txt")) rfl (by decide)
  · exact h.2.2
      [⟨("d"), [], [(("f.txt"), ⟨[("t")], none⟩)],
        [⟨("f.txt"), true, false, 5, 0⟩]⟩]
      ⟨("d"), [], none, [⟨("f.txt"), 5, 0, ("txt"), some ⟨[("t")], none⟩⟩]⟩
      (FileRecord.mk ("f.txt") 5 0 ("txt") (some ⟨[("t")], none⟩))
      (by decide) (by decide)

/-- Helper lemma: the age comparison at a true strict inequality. -/
theorem isFileOlderThan_true (now modTime days : Int)
    (h : now - modTime > days * usPerDay) :
    isFileOlderThan now modTime days = true := by
  unfold isFileOlderThan
  simp only [decide_eq_true_eq]
  exact h

/-- Helper lemma: the age comparison at a failed strict inequality. -/
theorem isFileOlderThan_false (now modTime days : Int)
    (h : ¬ now - modTime > days * usPerDay) :
    isFileOlderThan now modTime days = false := by
  unfold isFileOlderThan
  simp only [decide_eq_false_iff_not]
  exact h

/-- Claim C8: the `ageDays` predicate of `search_meta` holds exactly when
`now − last_modified` is strictly greater than N days; a file modified
exactly N days ago does not match `ageDays = N` but does match
`ageDays = N − 1`. -/
theorem age_days_strict (now modTime N : Int) (root : String) (doc : Doc)
    (name : String) (size : Int) (hn : name ≠ METADATA_FILE) :
    (evalFile now { ageDays := some (.int N) } root doc
        ⟨name, true, false, size, modTime⟩ =
      .ok (if now - modTime > N * usPerDay then some (root, name)
        else none)) ∧
    (now - modTime = N * usPerDay →
      evalFile now { ageDays := some (.int N) } root doc
        ⟨name, true, false, size, modTime⟩ = .ok none) ∧
    (now - modTime = N * usPerDay →
      evalFile now { ageDays := some (.int (N - 1)) } root doc
        ⟨name, true, false, size, modTime⟩ = .ok (some (root, name))) := by
  have hbeq : (name == METADATA_FILE) = false := by
    simp [hn]
  refine ⟨?_, ?_, ?_⟩
  · by_cases hgt : now - modTime > N * usPerDay
    · simp [evalFile, evalEntryBody, checkType, checkSize, checkAge,
        checkTags, checkMood, checkMoodName, pyToIntJ, hbeq, hgt,
        isFileOlderThan_true now modTime N hgt]
    · simp [evalFile, evalEntryBody, checkType, checkSize, checkAge,
        checkTags, checkMood, checkMoodName, pyToIntJ, hbeq, hgt,
        isFileOlderThan_false now modTime N hgt]
  · intro he
    have hng : ¬ now - modTime > N * usPerDay := by omega
    simp [evalFile, evalEntryBody, checkType, checkSize, checkAge,
      checkTags, checkMood, checkMoodName, pyToIntJ, hbeq,
      isFileOlderThan_false now modTime N hng]
  · intro he
    have hgt : now - modTime > (N - 1) * usPerDay := by
      have hpos : (0 : Int) < usPerDay := by norm_num [usPerDay]
      have hexp : (N - 1) * usPerDay = N * usPerDay - usPerDay := by ring
      omega
    simp [evalFile, evalEntryBody, checkType, checkSize, checkAge,
      checkTags, checkMood, checkMoodName, pyToIntJ, hbeq,
      isFileOlderThan_true now modTime (N - 1) hgt]

/-- Witness for `age_days_strict`: a file modified exactly 7 days before
`now` does not match `ageDays = 7` but matches `ageDays = 6`. -/
theorem age_days_strict_witness :
    evalFile (7 * usPerDay) { ageDays := some (.int 7) } ("d") []
        ⟨("a.txt"), true, false, 5, 0⟩ = .ok none ∧
    evalFile (7 * usPerDay) { ageDays := some (.int 6) } ("d") []
        ⟨("a.txt"), true, false, 5, 0⟩ = .ok (some (("d"), ("a.txt"))) := by
  have h := age_days_strict (7 * usPerDay) 0 7 ("d") [] ("a.txt") 5
    (by decide)
  refine ⟨h.2.1 (by omega), ?_⟩
  have h3 := h.2.2 (by omega)
  norm_num at h3
  exact h3

/-- Claim C3, counterexample: a query whose `type` value is not a string
(here the number 3) raises an uncaught `AttributeError` at the first
processed entry, aborting the whole traversal with an error — it is not
recovered per-entry, and the second entry is never evaluated. -/
theorem search_meta_malformed_aborts_cex :
    searchMeta 0 { type := some (.int 3) }
      [⟨("d"), [], [], [⟨("a.txt"), true, false, 5, 0⟩,
        ⟨("b.txt"), true, false, 5, 0⟩]⟩] = .error .attributeError := by
  rfl

/-- Helper lemma: a malformed `ageDays` value (a string that does not parse
as an integer) is recovered per-entry: the entry never matches and never
aborts the walk. -/
theorem evalFile_age_malformed (now : Int) (s : String)
    (hs : pyInt? s = none) (root : String) (doc : Doc) (f : FileEntry) :
    evalFile now { ageDays := some (.str s) } root doc f = .ok none := by
  unfold evalFile
  by_cases hg : (!f.isFile || f.name == METADATA_FILE) = true
  · rw [if_pos hg]
  · rw [if_neg hg]
    by_cases hstat : f.statFails = true
    · simp [evalEntryBody, hstat]
    · simp [evalEntryBody, hstat, checkType, checkSize, checkAge,
        pyToIntJ, hs]

/-- Helper lemma: under a malformed `ageDays` query every inner file loop
returns no matches without error. -/
theorem searchMetaFiles_age_malformed (now : Int) (s : String)
    (hs : pyInt? s = none) (root : String) (doc : Doc) :
    ∀ files : List FileEntry,
      searchMetaFiles now { ageDays := some (.str s) } root doc files =
        .ok [] := by
  intro files
  induction files with
  | nil => rfl
  | cons f rest ih =>
      simp [searchMetaFiles, evalFile_age_malformed now s hs root doc f, ih]

/-- Claim C3 (amended): only a malformed `ageDays` value (a string that
`int()` rejects, raising `ValueError`) is recovered per-entry — the entry is
skipped and the traversal continues, so the whole walk returns normally. A
non-string `type` value and a non-string `mood` value each raise an uncaught
`AttributeError`, and a `size` bound that is not a number raises an uncaught
`TypeError`, each aborting the entire traversal at the first processed
entry; a `tags` value that is neither a list nor a string is silently
ignored (no error, no constraint); and a `mood_name` value of any shape
never raises — the entry simply matches exactly when the stored mood name
equals it. -/
theorem search_meta_error_recovery :
    (∀ (now : Int) (s : String) (walk : List WalkDir), pyInt? s = none →
      searchMeta now { ageDays := some (JVal.str s) } walk = .ok []) ∧
    (∀ (now n : Int) (root : String) (sds : List String) (doc : Doc)
        (f : FileEntry), f.isFile = true → f.name ≠ METADATA_FILE →
      f.statFails = false →
      searchMeta now { type := some (JVal.int n) } [⟨root, sds, doc, [f]⟩] =
        .error .attributeError) ∧
    (∀ (now : Int) (s : String) (root : String) (sds : List String)
        (doc : Doc) (f : FileEntry), f.isFile = true →
      f.name ≠ METADATA_FILE → f.statFails = false →
      searchMeta now { size := some (JVal.obj [(("gt"), JVal.str s)]) }
        [⟨root, sds, doc, [f]⟩] = .error .typeError) ∧
    (∀ (now k : Int) (root : String) (sds : List String) (doc : Doc)
        (f : FileEntry), f.isFile = true → f.name ≠ METADATA_FILE →
      f.statFails = false →
      searchMeta now { tags := some (JVal.int k) } [⟨root, sds, doc, [f]⟩] =
        .ok [(root, f.name)]) ∧
    (∀ (now n : Int) (root : String) (sds : List String) (doc : Doc)
        (f : FileEntry), f.isFile = true → f.name ≠ METADATA_FILE →
      f.statFails = false →
      searchMeta now { mood := some (JVal.int n) } [⟨root, sds, doc, [f]⟩] =
        .error .attributeError) ∧
    (∀ (now : Int) (v : JVal) (root : String) (sds : List String)
        (doc : Doc) (f : FileEntry), f.isFile = true →
      f.name ≠ METADATA_FILE → f.statFails = false →
      searchMeta now { mood_name := some v } [⟨root, sds, doc, [f]⟩] =
        .ok (if jvalEqOptStr (((alGet doc f.name).bind Entry.mood).bind
            Mood.name) v then [(root, f.name)] else [])) := by
  refine ⟨?_, ?_, ?_, ?_, ?_, ?_⟩
  · intro now s walk hs
    induction walk with
    | nil => rfl
    | cons wd rest ih =>
        simp [searchMeta,
          searchMetaFiles_age_malformed now s hs wd.root wd.doc wd.files, ih]
  · intro now n root sds doc f h1 h2 h3
    have hbeq : (f.name == METADATA_FILE) = false := by
      simp [h2]
    simp [searchMeta, searchMetaFiles, evalFile, evalEntryBody, checkType,
      pyLowerJ, hbeq, h1, h3]
  · intro now s root sds doc f h1 h2 h3
    have hbeq : (f.name == METADATA_FILE) = false := by
      simp [h2]
    simp [searchMeta, searchMetaFiles, evalFile, evalEntryBody, checkType,
      checkSize, checkSizeGt, pyInContains, pyIndex, pyGtIntJ, alGet,
      hbeq, h1, h3]
  · intro now k root sds doc f h1 h2 h3
    have hbeq : (f.name == METADATA_FILE) = false := by
      simp [h2]
    simp [searchMeta, searchMetaFiles, evalFile, evalEntryBody, checkType,
      checkSize, checkAge, checkTags, checkMood, checkMoodName,
      hbeq, h1, h3]
  · intro now n root sds doc f h1 h2 h3
    have hbeq : (f.name == METADATA_FILE) = false := by
      simp [h2]
    simp [searchMeta, searchMetaFiles, evalFile, evalEntryBody, checkType,
      checkSize, checkAge, checkTags, checkMood, pyLowerJ, hbeq, h1, h3]
  · intro now v root sds doc f h1 h2 h3
    have hbeq : (f.name == METADATA_FILE) = false := by
      simp [h2]
    by_cases hm : jvalEqOptStr (((alGet doc f.name).bind Entry.mood).bind
        Mood.name) v = true
    · simp [searchMeta, searchMetaFiles, evalFile, evalEntryBody, checkType,
        checkSize, checkAge, checkTags, checkMood, checkMoodName,
        hbeq, h1, h3, hm]
    · have hm2 : jvalEqOptStr (((alGet doc f.name).bind Entry.mood).bind
          Mood.name) v = false := by
        cases hq : jvalEqOptStr (((alGet doc f.name).bind Entry.mood).bind
            Mood.name) v
        · rfl
        · exact absurd hq hm
      simp [searchMeta, searchMetaFiles, evalFile, evalEntryBody, checkType,
        checkSize, checkAge, checkTags, checkMood, checkMoodName,
        hbeq, h1, h3, hm2]

/-- Witness for `search_meta_error_recovery` on concrete queries and a
concrete one-file directory. -/
theorem search_meta_error_recovery_witness :
    searchMeta 0 { ageDays := some (JVal.str ("seven")) }
      [⟨("d"), [], [], [⟨("a.txt"), true, false, 5, 0⟩]⟩] = .ok [] ∧
    searchMeta 0 { type := some (JVal.int 3) }
      [⟨("e"), [], [], [⟨("b.txt"), true, false, 5, 0⟩]⟩] =
        .error .attributeError ∧
    searchMeta 0 { size := some (JVal.obj [(("gt"), JVal.str ("big"))]) }
      [⟨("e"), [], [], [⟨("b.txt"), true, false, 5, 0⟩]⟩] =
        .error .typeError ∧
    searchMeta 0 { tags := some (JVal.int 1) }
      [⟨("d"), [], [], [⟨("a.txt"), true, false, 5, 0⟩]⟩] =
        .ok [(("d"), ("a.txt"))] ∧
    searchMeta 0 { mood := some (JVal.int 2) }
      [⟨("e"), [], [], [⟨("b.txt"), true, false, 5, 0⟩]⟩] =
        .error .attributeError ∧
    searchMeta 0 { mood_name := some (JVal.str ("Vacation")) }
      [⟨("d"), [], [(("a.txt"),
          ⟨[], some ⟨some ("happy"), some ("Vacation")⟩⟩)],
        [⟨("a.txt"), true, false, 5, 0⟩]⟩] = .ok [(("d"), ("a.txt"))] := by
  have h := search_meta_error_recovery
  refine ⟨?_, ?_, ?_, ?_, ?_, ?_⟩
  · exact h.1 0 ("seven")
      [⟨("d"), [], [], [⟨("a.txt"), true, false, 5, 0⟩]⟩] rfl
  · exact h.2.1 0 3 ("e") [] [] ⟨("b.txt"), true, false, 5, 0⟩ rfl
      (by decide) rfl
  · exact h.2.2.1 0 ("big") ("e") [] [] ⟨("b.txt"), true, false, 5, 0⟩ rfl
      (by decide) rfl
  · exact h.2.2.2.1 0 1 ("d") [] [] ⟨("a.txt"), true, false, 5, 0⟩ rfl
      (by decide) rfl
  · exact h.2.2.2.2.1 0 2 ("e") [] [] ⟨("b.txt"), true, false, 5, 0⟩ rfl
      (by decide) rfl
  · have h6 := h.2.2.2.2.2 0 (JVal.str ("Vacation")) ("d") []
      [(("a.txt"), ⟨[], some ⟨some ("happy"), some ("Vacation")⟩⟩)]
      ⟨("a.txt"), true, false, 5, 0⟩ rfl (by decide) rfl
    simpa using h6
